import Mathlib

/-!
Shallow embedding of the request-handling and geometry-normalization
pipeline of `src/services/paddle-ocr/paddle_ocr_server.py`.

Coordinates, confidence scores and box fields are modelled as rationals:
the code applies only `min`, `max`, subtraction and plain copying to the
engine-supplied numbers, and none of the claims under study hinges on
floating-point rounding.

The handler `ocr_image` contains no exception handling, so a raised
exception (from `Image.open`, from `ocr.ocr`, or from `min()` applied to
an empty coordinate list) propagates out of the function; the web
framework's default behaviour, which the specification places out of
scope, turns an unhandled exception into an HTTP 500 server-error
response.  That framework default is the one modelling assumption below:
`HttpOutcome.serverError` stands for "the handler raised, the framework
answered 500".
-/

namespace PaddleOcrServer

/-- A polygon point `[x, y]` as it appears in the engine output. -/
abbrev Point : Type := ℚ × ℚ

/-- One engine line `[poly, (text, score)]`: the polygon, then the
recognized text with its confidence score. -/
abbrev OcrLine : Type := List Point × (String × ℚ)

/-- One engine page: a list of lines. -/
abbrev OcrPage : Type := List OcrLine

/-- The engine call `ocr.ocr(img_np)` returns either `None` (modelled as
`none`) or a list of pages. -/
abbrev OcrResult : Type := Option (List OcrPage)

/-- The box record appended to `boxes` for each line. -/
structure Box where
  x : ℚ
  y : ℚ
  width : ℚ
  height : ℚ
  text : String
  confidence : ℚ
deriving DecidableEq, Repr

/-- Python `min(xs)` on a list of numbers; `none` models the `ValueError`
raised on an empty list. -/
def pyMin : List ℚ → Option ℚ
  | [] => none
  | a :: r => some (r.foldl min a)

/-- Python `max(xs)` on a list of numbers; `none` models the `ValueError`
raised on an empty list. -/
def pyMax : List ℚ → Option ℚ
  | [] => none
  | a :: r => some (r.foldl max a)

/-- Body of the inner loop of `ocr_image`: from one line, take
`xs = [p[0] for p in poly]`, `ys = [p[1] for p in poly]`, compute
`x_min, x_max = min(xs), max(xs)` and `y_min, y_max = min(ys), max(ys)`,
and build the box `{x: x_min, y: y_min, width: x_max - x_min,
height: y_max - y_min, text: text, confidence: score}`.  `none` models
the exception raised when the polygon is empty. -/
def normalizeLine (line : OcrLine) : Option Box :=
  let xs := line.1.map Prod.fst
  let ys := line.1.map Prod.snd
  match pyMin xs, pyMax xs, pyMin ys, pyMax ys with
  | some x_min, some x_max, some y_min, some y_max =>
      some { x := x_min, y := y_min, width := x_max - x_min,
             height := y_max - y_min, text := line.2.1,
             confidence := line.2.2 }
  | _, _, _, _ => none

/-- Inner loop `for line in page`: the boxes appended for one page, in
line order; `none` when some line raises. -/
def boxesOfLines : List OcrLine → Option (List Box)
  | [] => some []
  | l :: ls =>
    match normalizeLine l, boxesOfLines ls with
    | some b, some bs => some (b :: bs)
    | _, _ => none

/-- Outer loop `for page in pages`: boxes of every page concatenated in
page order; `none` when some line raises. -/
def pagesBoxes : List OcrPage → Option (List Box)
  | [] => some []
  | pg :: pgs =>
    match boxesOfLines pg, pagesBoxes pgs with
    | some a, some b => some (a ++ b)
    | _, _ => none

/-- The whole result-to-boxes transformation of `ocr_image`:
`for page in (result or []): for line in page: ... boxes.append(...)`.
Python's `result or []` coalesces `None` to the empty list, which
`Option.getD` models. -/
def resultBoxes (result : OcrResult) : Option (List Box) :=
  pagesBoxes (result.getD [])

/-- Outcome of `Image.open(BytesIO(content)).convert("RGB")`: either a
decoded image or a raised exception. -/
inductive DecodeOutcome where
  | ok
  | raised
deriving DecidableEq

/-- Outcome of the engine call `ocr.ocr(img_np)`: either a raised
exception or a returned value. -/
inductive EngineOutcome where
  | raised
  | returned (result : OcrResult)
deriving DecidableEq

/-- The HTTP-level outcome of one request to `POST /ocr`:
`ok boxes` is an HTTP 200 response with body `{"boxes": boxes}`;
`serverError` is the framework's 500 answer to an unhandled exception. -/
inductive HttpOutcome where
  | ok (boxes : List Box)
  | serverError
deriving DecidableEq

/-- The endpoint handler `ocr_image`, parameterized by the outcomes of
its two effectful steps (decoding the upload, calling the engine).  The
handler has no `try`/`except`, so each failure propagates and becomes a
500 server error; on success it returns `{"boxes": boxes}`. -/
def ocr_image (decode : DecodeOutcome) (engine : EngineOutcome) :
    HttpOutcome :=
  match decode with
  | .raised => .serverError
  | .ok =>
    match engine with
    | .raised => .serverError
    | .returned result =>
      match resultBoxes result with
      | none => .serverError
      | some bs => .ok bs

/-! Helper lemmas about Python-style `min`/`max` over a list. -/

lemma foldl_min_le_init (a : ℚ) (l : List ℚ) : l.foldl min a ≤ a := by
  induction l generalizing a with
  | nil => simp
  | cons x xs ih =>
    calc (x :: xs).foldl min a = xs.foldl min (min a x) := rfl
    _ ≤ min a x := ih _
    _ ≤ a := min_le_left a x

lemma foldl_min_le_mem (a : ℚ) (l : List ℚ) : ∀ v ∈ l, l.foldl min a ≤ v := by
  induction l generalizing a with
  | nil => simp
  | cons x xs ih =>
    intro v hv
    rcases List.mem_cons.mp hv with h | h
    · subst h
      calc (v :: xs).foldl min a = xs.foldl min (min a v) := rfl
      _ ≤ min a v := foldl_min_le_init (min a v) xs
      _ ≤ v := min_le_right a v
    · exact ih (min a x) v h

lemma foldl_min_eq_init_or_mem (a : ℚ) (l : List ℚ) :
    l.foldl min a = a ∨ l.foldl min a ∈ l := by
  induction l generalizing a with
  | nil => exact Or.inl rfl
  | cons x xs ih =>
    rcases ih (min a x) with h | h
    · rcases min_choice a x with h2 | h2
      · exact Or.inl (by rw [List.foldl_cons, h, h2])
      · exact Or.inr (by rw [List.foldl_cons, h, h2]; exact List.mem_cons_self x xs)
    · exact Or.inr (List.mem_cons_of_mem x h)

lemma init_le_foldl_max (a : ℚ) (l : List ℚ) : a ≤ l.foldl max a := by
  induction l generalizing a with
  | nil => simp
  | cons x xs ih =>
    calc a ≤ max a x := le_max_left a x
    _ ≤ xs.foldl max (max a x) := ih _
    _ = (x :: xs).foldl max a := rfl

lemma mem_le_foldl_max (a : ℚ) (l : List ℚ) : ∀ v ∈ l, v ≤ l.foldl max a := by
  induction l generalizing a with
  | nil => simp
  | cons x xs ih =>
    intro v hv
    rcases List.mem_cons.mp hv with h | h
    · subst h
      calc v ≤ max a v := le_max_right a v
      _ ≤ xs.foldl max (max a v) := init_le_foldl_max (max a v) xs
      _ = (v :: xs).foldl max a := rfl
    · exact ih (max a x) v h

lemma foldl_max_eq_init_or_mem (a : ℚ) (l : List ℚ) :
    l.foldl max a = a ∨ l.foldl max a ∈ l := by
  induction l generalizing a with
  | nil => exact Or.inl rfl
  | cons x xs ih =>
    rcases ih (max a x) with h | h
    · rcases max_choice a x with h2 | h2
      · exact Or.inl (by rw [List.foldl_cons, h, h2])
      · exact Or.inr (by rw [List.foldl_cons, h, h2]; exact List.mem_cons_self x xs)
    · exact Or.inr (List.mem_cons_of_mem x h)

/-- Python `min(xs)` returns an element of `xs` that bounds every element
from below. -/
lemma pyMin_spec {xs : List ℚ} {m : ℚ} (h : pyMin xs = some m) :
    m ∈ xs ∧ ∀ v ∈ xs, m ≤ v := by
  match xs, h with
  | a :: r, h =>
    simp only [pyMin, Option.some.injEq] at h
    subst h
    refine ⟨?_, ?_⟩
    · rcases foldl_min_eq_init_or_mem a r with h | h
      · rw [h]; exact List.mem_cons_self a r
      · exact List.mem_cons_of_mem a h
    · intro v hv
      rcases List.mem_cons.mp hv with h | h
      · subst h; exact foldl_min_le_init v r
      · exact foldl_min_le_mem a r v h

/-- Python `max(xs)` returns an element of `xs` that bounds every element
from above. -/
lemma pyMax_spec {xs : List ℚ} {m : ℚ} (h : pyMax xs = some m) :
    m ∈ xs ∧ ∀ v ∈ xs, v ≤ m := by
  match xs, h with
  | a :: r, h =>
    simp only [pyMax, Option.some.injEq] at h
    subst h
    refine ⟨?_, ?_⟩
    · rcases foldl_max_eq_init_or_mem a r with h | h
      · rw [h]; exact List.mem_cons_self a r
      · exact List.mem_cons_of_mem a h
    · intro v hv
      rcases List.mem_cons.mp hv with h | h
      · subst h; exact init_le_foldl_max v r
      · exact mem_le_foldl_max a r v h

/-- Inversion for a successful normalization: the emitted box is built
from `min`/`max` of the polygon coordinates, with text and score copied. -/
lemma normalizeLine_eq_some {line : OcrLine} {b : Box}
    (h : normalizeLine line = some b) :
    ∃ x_min x_max y_min y_max,
      pyMin (line.1.map Prod.fst) = some x_min ∧
      pyMax (line.1.map Prod.fst) = some x_max ∧
      pyMin (line.1.map Prod.snd) = some y_min ∧
      pyMax (line.1.map Prod.snd) = some y_max ∧
      b = ⟨x_min, y_min, x_max - x_min, y_max - y_min,
           line.2.1, line.2.2⟩ := by
  unfold normalizeLine at h
  simp only [] at h
  split at h
  · next x_min x_max y_min y_max hx1 hx2 hy1 hy2 =>
    exact ⟨x_min, x_max, y_min, y_max, hx1, hx2, hy1, hy2,
      (Option.some.injEq _ _ ▸ h).symm⟩
  · exact absurd h (by simp)

/-- Inversion for one step of the inner loop. -/
lemma boxesOfLines_cons {l : OcrLine} {ls : List OcrLine} {bs : List Box}
    (h : boxesOfLines (l :: ls) = some bs) :
    ∃ b bs0, normalizeLine l = some b ∧ boxesOfLines ls = some bs0 ∧
      bs = b :: bs0 := by
  unfold boxesOfLines at h
  split at h
  · next b bs0 hb hbs =>
    exact ⟨b, bs0, hb, hbs, (Option.some.injEq _ _ ▸ h).symm⟩
  · exact absurd h (by simp)

/-- Inversion for one step of the outer loop. -/
lemma pagesBoxes_cons {pg : OcrPage} {pgs : List OcrPage} {bs : List Box}
    (h : pagesBoxes (pg :: pgs) = some bs) :
    ∃ a c, boxesOfLines pg = some a ∧ pagesBoxes pgs = some c ∧
      bs = a ++ c := by
  unfold pagesBoxes at h
  split at h
  · next a c ha hc =>
    exact ⟨a, c, ha, hc, (Option.some.injEq _ _ ▸ h).symm⟩
  · exact absurd h (by simp)

/-- A successful inner loop preserves cardinality and order: box `i` is
exactly the normalization of line `i`. -/
lemma boxesOfLines_spec {lines : List OcrLine} {bs : List Box}
    (h : boxesOfLines lines = some bs) :
    bs.length = lines.length ∧
      ∀ i (hi : i < lines.length), bs[i]? = normalizeLine lines[i] := by
  induction lines generalizing bs with
  | nil =>
    simp only [boxesOfLines, Option.some.injEq] at h
    subst h
    exact ⟨rfl, fun i hi => absurd hi (Nat.not_lt_zero i)⟩
  | cons l ls ih =>
    obtain ⟨b, bs0, hb, hbs, rfl⟩ := boxesOfLines_cons h
    obtain ⟨hlen, hidx⟩ := ih hbs
    refine ⟨by simp [hlen], ?_⟩
    intro i hi
    cases i with
    | zero => simpa using hb.symm
    | succ j =>
      have hj : j < ls.length := Nat.lt_of_succ_lt_succ hi
      simpa using hidx j hj

/-- Every box produced by the inner loop comes from some line of the
page. -/
lemma mem_boxesOfLines {lines : List OcrLine} {bs : List Box} {b : Box}
    (h : boxesOfLines lines = some bs) (hb : b ∈ bs) :
    ∃ l ∈ lines, normalizeLine l = some b := by
  induction lines generalizing bs with
  | nil =>
    simp only [boxesOfLines, Option.some.injEq] at h
    subst h
    simp at hb
  | cons l ls ih =>
    obtain ⟨b0, bs0, hb0, hbs, rfl⟩ := boxesOfLines_cons h
    rcases List.mem_cons.mp hb with h1 | h1
    · exact ⟨l, List.mem_cons_self l ls, by rw [h1]; exact hb0⟩
    · obtain ⟨l0, hl0, he⟩ := ih hbs h1
      exact ⟨l0, List.mem_cons_of_mem l hl0, he⟩

/-- Every box produced by the double loop comes from some line of some
page. -/
lemma mem_pagesBoxes {pgs : List OcrPage} {bs : List Box} {b : Box}
    (h : pagesBoxes pgs = some bs) (hb : b ∈ bs) :
    ∃ pg ∈ pgs, ∃ l ∈ pg, normalizeLine l = some b := by
  induction pgs generalizing bs with
  | nil =>
    simp only [pagesBoxes, Option.some.injEq] at h
    subst h
    simp at hb
  | cons pg pgs ih =>
    obtain ⟨a, c, ha, hc, rfl⟩ := pagesBoxes_cons h
    rcases List.mem_append.mp hb with h1 | h1
    · obtain ⟨l, hl, he⟩ := mem_boxesOfLines ha h1
      exact ⟨pg, List.mem_cons_self pg pgs, l, hl, he⟩
    · obtain ⟨pg0, hpg0, l, hl, he⟩ := ih hc h1
      exact ⟨pg0, List.mem_cons_of_mem pg hpg0, l, hl, he⟩

/-- A result whose pages are all empty produces no boxes and no
exception. -/
lemma pagesBoxes_all_empty {pgs : List OcrPage}
    (h : ∀ pg ∈ pgs, pg = []) : pagesBoxes pgs = some [] := by
  induction pgs with
  | nil => rfl
  | cons pg pgs ih =>
    have h1 : pg = [] := h pg (List.mem_cons_self pg pgs)
    subst h1
    have h2 := ih (fun p hp => h p (List.mem_cons_of_mem [] hp))
    simp [pagesBoxes, boxesOfLines, h2]

/-- A one-page result behaves like the inner loop alone. -/
lemma pagesBoxes_singleton (pg : OcrPage) :
    pagesBoxes [pg] = boxesOfLines pg := by
  cases hp : boxesOfLines pg <;> simp [pagesBoxes, hp]

/-- Normalization succeeds on every line whose polygon is nonempty. -/
lemma normalizeLine_isSome {line : OcrLine} (h : line.1 ≠ []) :
    ∃ b, normalizeLine line = some b := by
  obtain ⟨poly, ts⟩ := line
  obtain ⟨p, ps, rfl⟩ := List.exists_cons_of_ne_nil h
  exact ⟨_, rfl⟩

/-! Concrete engine outputs used to instantiate the theorems. -/

/-- The rectangle detection from the specification's test table. -/
def rectLine : OcrLine := ([(10, 20), (50, 20), (50, 60), (10, 60)], ("t", 99/100))

/-- The box the rectangle detection normalizes to. -/
def rectBox : Box := ⟨10, 20, 40, 40, "t", 99/100⟩

/-- A detection on a first page. -/
def lineA : OcrLine := ([(0, 0), (2, 0), (2, 1), (0, 1)], ("A", 1))

/-- The box `lineA` normalizes to. -/
def boxA : Box := ⟨0, 0, 2, 1, "A", 1⟩

/-- A detection on a second page. -/
def lineB : OcrLine := ([(10, 10), (14, 10), (14, 12), (10, 12)], ("B", 1/2))

/-- The box `lineB` normalizes to. -/
def boxB : Box := ⟨10, 10, 4, 2, "B", 1/2⟩

/-- A degenerate single-point detection with empty text. -/
def degLine : OcrLine := ([(5, 5)], ("", 1))

/-- The zero-area box `degLine` normalizes to. -/
def degBox : Box := ⟨5, 5, 0, 0, "", 1⟩

/-- A single-point detection used for totality. -/
def pointLine : OcrLine := ([(5, 5)], ("p", 2))

/-- A detection with a coordinate far beyond any image dimension and a
confidence score outside `[0, 1]`. -/
def wildLine : OcrLine := ([(-3, 10000)], ("w", 3/2))

/-- The box `wildLine` normalizes to: coordinates and confidence pass
through unclamped. -/
def wildBox : Box := ⟨-3, 10000, 0, 0, "w", 3/2⟩

lemma normalizeLine_rectLine : normalizeLine rectLine = some rectBox := by
  norm_num [rectLine, rectBox, normalizeLine, pyMin, pyMax, min_def, max_def]

lemma normalizeLine_lineA : normalizeLine lineA = some boxA := by
  norm_num [lineA, boxA, normalizeLine, pyMin, pyMax, min_def, max_def]

lemma normalizeLine_lineB : normalizeLine lineB = some boxB := by
  norm_num [lineB, boxB, normalizeLine, pyMin, pyMax, min_def, max_def]

lemma normalizeLine_degLine : normalizeLine degLine = some degBox := by
  norm_num [degLine, degBox, normalizeLine, pyMin, pyMax]

lemma normalizeLine_wildLine : normalizeLine wildLine = some wildBox := by
  norm_num [wildLine, wildBox, normalizeLine, pyMin, pyMax]

/-! The claims. -/

/-- C1: every box the handler emits from a detection satisfies the
normalization algorithm exactly: its `x` is the minimum of the polygon's
x-coordinates, its `y` the minimum of the y-coordinates, its width the
maximum x minus the minimum x, its height the maximum y minus the
minimum y, and its text and confidence are the detection's, unchanged. -/
theorem C1_geometry_normalization (line : OcrLine) (b : Box)
    (h : normalizeLine line = some b) :
    (b.x ∈ line.1.map Prod.fst ∧ ∀ v ∈ line.1.map Prod.fst, b.x ≤ v) ∧
    (b.y ∈ line.1.map Prod.snd ∧ ∀ v ∈ line.1.map Prod.snd, b.y ≤ v) ∧
    (∃ M, M ∈ line.1.map Prod.fst ∧ (∀ v ∈ line.1.map Prod.fst, v ≤ M) ∧
      b.width = M - b.x) ∧
    (∃ M, M ∈ line.1.map Prod.snd ∧ (∀ v ∈ line.1.map Prod.snd, v ≤ M) ∧
      b.height = M - b.y) ∧
    b.text = line.2.1 ∧ b.confidence = line.2.2 := by
  obtain ⟨x_min, x_max, y_min, y_max, hx1, hx2, hy1, hy2, rfl⟩ :=
    normalizeLine_eq_some h
  obtain ⟨hm1, hl1⟩ := pyMin_spec hx1
  obtain ⟨hm2, hl2⟩ := pyMax_spec hx2
  obtain ⟨hm3, hl3⟩ := pyMin_spec hy1
  obtain ⟨hm4, hl4⟩ := pyMax_spec hy2
  exact ⟨⟨hm1, hl1⟩, ⟨hm3, hl3⟩, ⟨x_max, hm2, hl2, rfl⟩,
    ⟨y_max, hm4, hl4, rfl⟩, rfl, rfl⟩

/-- Witness for C1 at the specification's rectangle (10,20), (50,20),
(50,60), (10,60): the emitted box is {x:10, y:20, width:40, height:40}
with text and confidence copied. -/
theorem C1_geometry_normalization_witness :
    normalizeLine rectLine = some rectBox ∧
    ((rectBox.x ∈ rectLine.1.map Prod.fst ∧
        ∀ v ∈ rectLine.1.map Prod.fst, rectBox.x ≤ v) ∧
      (rectBox.y ∈ rectLine.1.map Prod.snd ∧
        ∀ v ∈ rectLine.1.map Prod.snd, rectBox.y ≤ v) ∧
      (∃ M, M ∈ rectLine.1.map Prod.fst ∧
        (∀ v ∈ rectLine.1.map Prod.fst, v ≤ M) ∧
        rectBox.width = M - rectBox.x) ∧
      (∃ M, M ∈ rectLine.1.map Prod.snd ∧
        (∀ v ∈ rectLine.1.map Prod.snd, v ≤ M) ∧
        rectBox.height = M - rectBox.y) ∧
      rectBox.text = rectLine.2.1 ∧ rectBox.confidence = rectLine.2.2) :=
  ⟨normalizeLine_rectLine,
    C1_geometry_normalization rectLine rectBox normalizeLine_rectLine⟩

/-- C9: a `None` engine result is coalesced by `result or []` to an
empty page list, so the handler returns HTTP 200 with an empty boxes
list instead of raising. -/
theorem C9_none_result_coalesced :
    resultBoxes none = some [] ∧
    ocr_image .ok (.returned none) = .ok [] :=
  ⟨rfl, rfl⟩

/-- C10: the result-to-boxes transformation is deterministic: equal
engine outputs produce equal boxes lists and equal HTTP outcomes. -/
theorem C10_deterministic (r1 r2 : OcrResult) (h : r1 = r2) :
    resultBoxes r1 = resultBoxes r2 ∧
    ocr_image .ok (.returned r1) = ocr_image .ok (.returned r2) := by
  subst h
  exact ⟨rfl, rfl⟩

/-- Witness for C10 at a concrete one-page result. -/
theorem C10_deterministic_witness :
    resultBoxes (some [[lineA]]) = resultBoxes (some [[lineA]]) ∧
    ocr_image .ok (.returned (some [[lineA]])) =
      ocr_image .ok (.returned (some [[lineA]])) :=
  C10_deterministic (some [[lineA]]) (some [[lineA]]) rfl

/-- C2 counterexample: the claim says an undecodable upload yields a
client-error (4xx) response distinguished from the server-error (5xx)
of an engine failure.  The handler has no exception handling at all, so
a decode failure propagates and produces the very same unhandled
exception server-error (500) outcome as an engine failure: the two are
not distinguished and no 4xx is ever produced. -/
theorem C2_decode_error_counterexample :
    ocr_image .raised (.returned (some [])) = .serverError ∧
    ocr_image .ok .raised = .serverError ∧
    ocr_image .raised (.returned (some [])) = ocr_image .ok .raised :=
  ⟨rfl, rfl, rfl⟩

/-- C2 amended: every decode failure and every engine failure surfaces
as a server-error (500) response, with no status-class distinction
between the two; and no partial results exist: a success response
arises only when both steps succeeded, and its boxes are exactly the
full transformation of the engine result. -/
theorem C2_amended_failures_are_server_errors :
    (∀ e, ocr_image .raised e = .serverError) ∧
    (∀ d, ocr_image d .raised = .serverError) ∧
    (∀ d e bs, ocr_image d e = .ok bs →
      d = .ok ∧ ∃ r, e = .returned r ∧ resultBoxes r = some bs) := by
  refine ⟨fun e => rfl, fun d => by cases d <;> rfl, ?_⟩
  intro d e bs h
  cases d with
  | raised => simp [ocr_image] at h
  | ok =>
    cases e with
    | raised => simp [ocr_image] at h
    | returned r =>
      refine ⟨rfl, r, rfl, ?_⟩
      cases hr : resultBoxes r with
      | none => simp [ocr_image, hr] at h
      | some bs0 =>
        simp only [ocr_image, hr, HttpOutcome.ok.injEq] at h
        rw [h]

/-- Witness for the amended C2 at concrete outcomes. -/
theorem C2_amended_witness :
    ocr_image .raised (.returned none) = .serverError ∧
    ocr_image .ok .raised = .serverError ∧
    (DecodeOutcome.ok = .ok ∧ ∃ r, EngineOutcome.returned none = .returned r ∧
      resultBoxes r = some []) :=
  ⟨C2_amended_failures_are_server_errors.1 (.returned none),
    C2_amended_failures_are_server_errors.2.1 .ok,
    C2_amended_failures_are_server_errors.2.2 .ok (.returned none) [] rfl⟩

/-- C3 counterexample: the claim says pages beyond the first contribute
no boxes.  On a two-page engine result the handler emits the second
page's box as well: the response is the two boxes, not just the first
page's one. -/
theorem C3_first_page_only_counterexample :
    ocr_image .ok (.returned (some [[lineA], [lineB]])) = .ok [boxA, boxB] ∧
    ocr_image .ok (.returned (some [[lineA], [lineB]])) ≠ .ok [boxA] := by
  have h : ocr_image .ok (.returned (some [[lineA], [lineB]])) =
      .ok [boxA, boxB] := by
    simp [ocr_image, resultBoxes, pagesBoxes, boxesOfLines,
      normalizeLine_lineA, normalizeLine_lineB]
  refine ⟨h, ?_⟩
  rw [h]
  simp

/-- C3 amended: a multi-page engine result contributes the detections
of every page, concatenated in page order; pages beyond the first are
not ignored. -/
theorem C3_amended_all_pages_included (pg : OcrPage) (pgs : List OcrPage)
    (a c : List Box) (h1 : boxesOfLines pg = some a)
    (h2 : pagesBoxes pgs = some c) :
    resultBoxes (some (pg :: pgs)) = some (a ++ c) := by
  simp [resultBoxes, pagesBoxes, h1, h2]

/-- Witness for the amended C3 on the concrete two-page result. -/
theorem C3_amended_witness :
    resultBoxes (some [[lineA], [lineB]]) = some ([boxA] ++ [boxB]) :=
  C3_amended_all_pages_included [lineA] [[lineB]] [boxA] [boxB]
    (by simp [boxesOfLines, normalizeLine_lineA])
    (by simp [pagesBoxes, boxesOfLines, normalizeLine_lineB])

/-- C4: for a one-page engine result the handler is order- and
cardinality-preserving: it emits exactly as many boxes as there are
detections, and box `i` is exactly the normalization of detection `i` —
no deduplication, no sorting, no filtering. -/
theorem C4_order_and_cardinality (lines : List OcrLine) (bs : List Box)
    (h : resultBoxes (some [lines]) = some bs) :
    bs.length = lines.length ∧
      ∀ i (hi : i < lines.length), bs[i]? = normalizeLine lines[i] := by
  have h0 : boxesOfLines lines = some bs := by
    rw [resultBoxes, Option.getD_some, pagesBoxes_singleton] at h
    exact h
  exact boxesOfLines_spec h0

/-- Witness for C4 on a concrete two-detection page. -/
theorem C4_order_and_cardinality_witness :
    ([boxA, boxB] : List Box).length = ([lineA, lineB] : List OcrLine).length ∧
    ∀ i (hi : i < ([lineA, lineB] : List OcrLine).length),
      ([boxA, boxB] : List Box)[i]? = normalizeLine [lineA, lineB][i] :=
  C4_order_and_cardinality [lineA, lineB] [boxA, boxB]
    (by simp [resultBoxes, pagesBoxes, boxesOfLines,
      normalizeLine_lineA, normalizeLine_lineB])

/-- C5: when the engine returns an empty detection sequence for a
well-formed image, the handler returns HTTP 200 with an empty boxes
list; the empty result is never treated as an error. -/
theorem C5_empty_detections_success (pages : List OcrPage)
    (h : ∀ pg ∈ pages, pg = []) :
    ocr_image .ok (.returned (some pages)) = .ok [] := by
  have h2 := pagesBoxes_all_empty h
  simp [ocr_image, resultBoxes, h2]

/-- Witness for C5: a result with one empty page yields the empty-boxes
success response. -/
theorem C5_empty_detections_success_witness :
    ocr_image .ok (.returned (some [[]])) = .ok [] :=
  C5_empty_detections_success [[]] (by simp)

/-- C6: every box the handler emits has nonnegative width and height. -/
theorem C6_width_height_nonneg (result : OcrResult) (bs : List Box)
    (b : Box) (h : resultBoxes result = some bs) (hb : b ∈ bs) :
    0 ≤ b.width ∧ 0 ≤ b.height := by
  rw [resultBoxes] at h
  obtain ⟨pg, hpg, l, hl, he⟩ := mem_pagesBoxes h hb
  obtain ⟨x_min, x_max, y_min, y_max, hx1, hx2, hy1, hy2, rfl⟩ :=
    normalizeLine_eq_some he
  constructor
  · exact sub_nonneg.mpr ((pyMin_spec hx1).2 x_max (pyMax_spec hx2).1)
  · exact sub_nonneg.mpr ((pyMin_spec hy1).2 y_max (pyMax_spec hy2).1)

/-- Witness for C6 at the degenerate zero-area box, which the handler
emits unmodified rather than filtering it. -/
theorem C6_width_height_nonneg_witness :
    0 ≤ degBox.width ∧ 0 ≤ degBox.height :=
  C6_width_height_nonneg (some [[degLine]]) [degBox] degBox
    (by simp [resultBoxes, pagesBoxes, boxesOfLines, normalizeLine_degLine])
    (List.mem_singleton.mpr rfl)

/-- C7: normalization of a single detection is total over any polygon
with at least one point, and the polygon collapsed to the single point
(5,5) yields the box {x:5, y:5, width:0, height:0} with text and
confidence copied. -/
theorem C7_total_on_nonempty_polygon :
    (∀ line : OcrLine, line.1 ≠ [] → ∃ b, normalizeLine line = some b) ∧
    ∀ t s, normalizeLine ([((5 : ℚ), (5 : ℚ))], (t, s)) =
      some ⟨5, 5, 0, 0, t, s⟩ := by
  refine ⟨fun line h => normalizeLine_isSome h, ?_⟩
  intro t s
  simp [normalizeLine, pyMin, pyMax]

/-- Witness for C7 at a concrete single-point detection. -/
theorem C7_total_on_nonempty_polygon_witness :
    (∃ b, normalizeLine pointLine = some b) ∧
    normalizeLine ([((5 : ℚ), (5 : ℚ))], ("p", (2 : ℚ))) =
      some ⟨5, 5, 0, 0, "p", 2⟩ :=
  ⟨C7_total_on_nonempty_polygon.1 pointLine (by simp [pointLine]),
    C7_total_on_nonempty_polygon.2 "p" 2⟩

/-- C8: no clamping: the emitted coordinates are raw polygon
coordinates (the box's corners are elements of the polygon's coordinate
lists, whatever their magnitude), and text and confidence are copied
unchanged even when the confidence lies outside [0, 1]. -/
theorem C8_no_clamping (line : OcrLine) (b : Box)
    (h : normalizeLine line = some b) :
    b.confidence = line.2.2 ∧ b.text = line.2.1 ∧
    b.x ∈ line.1.map Prod.fst ∧ b.x + b.width ∈ line.1.map Prod.fst ∧
    b.y ∈ line.1.map Prod.snd ∧ b.y + b.height ∈ line.1.map Prod.snd := by
  obtain ⟨x_min, x_max, y_min, y_max, hx1, hx2, hy1, hy2, rfl⟩ :=
    normalizeLine_eq_some h
  refine ⟨rfl, rfl, (pyMin_spec hx1).1, ?_, (pyMin_spec hy1).1, ?_⟩
  · show x_min + (x_max - x_min) ∈ _
    rw [show x_min + (x_max - x_min) = x_max from by ring]
    exact (pyMax_spec hx2).1
  · show y_min + (y_max - y_min) ∈ _
    rw [show y_min + (y_max - y_min) = y_max from by ring]
    exact (pyMax_spec hy2).1

/-- Witness for C8 at a detection whose coordinate 10000 exceeds any
plausible image dimension and whose confidence 3/2 lies outside [0,1]:
both pass through unclamped. -/
theorem C8_no_clamping_witness :
    (1 : ℚ) < wildBox.confidence ∧
    (wildBox.confidence = wildLine.2.2 ∧ wildBox.text = wildLine.2.1 ∧
      wildBox.x ∈ wildLine.1.map Prod.fst ∧
      wildBox.x + wildBox.width ∈ wildLine.1.map Prod.fst ∧
      wildBox.y ∈ wildLine.1.map Prod.snd ∧
      wildBox.y + wildBox.height ∈ wildLine.1.map Prod.snd) :=
  ⟨by norm_num [wildBox],
    C8_no_clamping wildLine wildBox normalizeLine_wildLine⟩

end PaddleOcrServer
